import Mathlib

/-!
Shallow embedding of the route-ordering core of `services/travel_planner.py`
(`TravelPlanner._optimize_travel_path`, lines 140-192, and
`TravelPlanner._get_travel_time_with_timeout`, lines 194-220), together with
proofs of the behavioural properties of that code.

Modelling conventions:
* travel times and coordinates are rationals (`ℚ`);
* a Python dict mapping index pairs to times is an association list
  `List ((ℕ × ℕ) × ℚ)` extended by appending (insertion order preserved,
  first-match lookup — keys are never inserted twice by this code);
* the outcome of one external lookup is a `CallOutcome`; what
  `asyncio.gather(..., return_exceptions=True)` hands back per task is a
  `GatherResult`;
* `float('inf')` is `⊤` in `WithTop ℚ`;
* the iteration order of the Python set `unvisited` (a set of the small
  ints `0..n-1`, which CPython iterates in ascending order) is an
  ascending list.
-/

namespace NaviGo

/-- A place record as seen by `_optimize_travel_path`: a name plus the
optional `mapx`/`mapy` fields.  A coordinate that is absent (or was set to
`None`) is `none`. -/
structure Place where
  name : String
  mapx : Option ℚ
  mapy : Option ℚ
deriving DecidableEq, Repr, Inhabited

/-- Python truthiness of an optional numeric field: `None` and `0` are
falsy, every other number is truthy. -/
def truthy : Option ℚ → Bool
  | none => false
  | some v => v ≠ 0

/-- The validity test of line 147: `place.get("mapx") and place.get("mapy")`. -/
def hasCoords (p : Place) : Bool := truthy p.mapx && truthy p.mapy

/-- Outcome of one call of `_get_travel_time_with_timeout` against the
external provider (lines 196-220). -/
inductive CallOutcome where
  | success (v : ℚ)
  | noData
  | timeout
  | error
deriving DecidableEq, Repr

/-- What `asyncio.gather(*tasks, return_exceptions=True)` (line 159)
delivers for one task: the coroutine's return value, or an exception
object. -/
inductive GatherResult where
  | value (o : CallOutcome)
  | exn
deriving DecidableEq, Repr

/-- The sentinel travel time used for failed lookups (99999). -/
def sentinel : ℚ := 99999

/-- The per-call timeout passed to `asyncio.wait_for` on line 210. -/
def lookupTimeoutSeconds : ℕ := 5

/-- `_get_travel_time_with_timeout` (lines 194-220): a successful provider
answer is returned as-is; a `None` answer, an `asyncio.TimeoutError` and a
provider exception all return the sentinel 99999. -/
def getTravelTimeWithTimeout : CallOutcome → ℚ
  | .success v => v
  | .noData => sentinel
  | .timeout => sentinel
  | .error => sentinel

/-- The value the recording loop (lines 164-169) stores for one gather
result: `99999` for an exception object, otherwise the coroutine's value. -/
def recordedValue : GatherResult → ℚ
  | .value o => getTravelTimeWithTimeout o
  | .exn => sentinel

/-- A gather result that does not carry a successful provider answer. -/
def GatherResult.failed : GatherResult → Bool
  | .value (.success _) => false
  | .value _ => true
  | .exn => true

/-- The iteration space of the nested loops on lines 154-155 and 161-162:
all ordered index pairs `(i, j)` with `i, j < n`, in row-major order. -/
def allPairs (n : ℕ) : List (ℕ × ℕ) :=
  (List.range n).flatMap (fun i => (List.range n).map (fun j => (i, j)))

/-- The pairs `(i, j)` with `i < j < n`, in row-major order. -/
def pairsLt (n : ℕ) : List (ℕ × ℕ) :=
  (List.range n).flatMap
    (fun i => ((List.range n).filter (fun j => i < j)).map (fun j => (i, j)))

/-- The association list modelling the `travel_times` dict. -/
abbrev TTMatrix := List ((ℕ × ℕ) × ℚ)

/-- Dict lookup: `travel_times[(i, j)]` when present. -/
def tlookup : TTMatrix → ℕ × ℕ → Option ℚ
  | [], _ => none
  | (k, v) :: rest, p => if k = p then some v else tlookup rest p

/-- The task-building loop (lines 154-157): over the pair iteration space,
a task is appended for `(i, j)` whenever `i != j and (j, i) not in
travel_times`.  The `travel_times` dict seen by this loop is passed in as
`tt`; in the source it is still empty at this point. -/
def taskLoop (tt : TTMatrix) : List (ℕ × ℕ) → List (ℕ × ℕ)
  | [] => []
  | (i, j) :: rest =>
    if i ≠ j ∧ tlookup tt (j, i) = none then (i, j) :: taskLoop tt rest
    else taskLoop tt rest

/-- The ordered pairs for which a lookup task is created for `n` valid
places (line 157, with `travel_times = {}` as on line 152). -/
def issuedTaskPairs (n : ℕ) : List (ℕ × ℕ) := taskLoop [] (allPairs n)

/-- The recording loop (lines 160-170): it walks the same iteration space
with the same guard, now against the growing dict, and stores
`results[task_idx]` for each recorded pair.  The `task_idx` counter into
`results` is realised by consuming the results list as a queue: each
recorded pair takes the head and the loop continues with the tail. -/
def fillLoop : List (ℕ × ℕ) → List ℚ → TTMatrix → TTMatrix
  | [], _, tt => tt
  | (i, j) :: rest, res, tt =>
    if i ≠ j ∧ tlookup tt (j, i) = none then
      fillLoop rest res.tail (tt ++ [((i, j), res.headD sentinel)])
    else fillLoop rest res tt

/-- Proof helper: the keys the recording loop inserts, as a function of the
keys already present.  Mirrors the guard of `fillLoop`, tracking keys only. -/
def recKeys (ks : List (ℕ × ℕ)) : List (ℕ × ℕ) → List (ℕ × ℕ)
  | [] => []
  | (i, j) :: rest =>
    if i ≠ j ∧ (j, i) ∉ ks then (i, j) :: recKeys (ks ++ [(i, j)]) rest
    else recKeys ks rest

/-- Proof helper: the association list obtained by pairing a key list with
successive results, consuming the results list as a queue. -/
def expectedFill : List (ℕ × ℕ) → List ℚ → TTMatrix
  | [], _ => []
  | p :: ps, res => (p, res.headD sentinel) :: expectedFill ps res.tail

/-- The mean used by the backfill step (line 174):
`sum(valid_times) / max(1, len(valid_times))` when some non-sentinel value
exists, else the sentinel itself. -/
def meanOf (tt : TTMatrix) : ℚ :=
  if ((tt.map Prod.snd).filter (fun t => t ≠ sentinel)).isEmpty then sentinel
  else ((tt.map Prod.snd).filter (fun t => t ≠ sentinel)).sum /
    ((max 1 ((tt.map Prod.snd).filter (fun t => t ≠ sentinel)).length : ℕ) : ℚ)

/-- The backfill step (lines 172-177): every entry equal to the sentinel is
replaced by `meanOf`. -/
def backfill (tt : TTMatrix) : TTMatrix :=
  tt.map (fun kv => if kv.2 = sentinel then (kv.1, meanOf tt) else kv)

/-- `travel_times.get((current, x), float('inf'))` (line 186). -/
def ttGet (tt : TTMatrix) (p : ℕ × ℕ) : WithTop ℚ :=
  match tlookup tt p with
  | some v => (v : WithTop ℚ)
  | none => ⊤

/-- Python's `min(iterable, key=...)`: scan left to right, keeping the
current best and replacing it only on a strictly smaller key, so the first
minimum wins. -/
def pyMinBy (key : ℕ → WithTop ℚ) : ℕ → List ℕ → ℕ
  | best, [] => best
  | best, x :: xs => if key x < key best then pyMinBy key x xs else pyMinBy key best xs

theorem pyMinBy_mem (key : ℕ → WithTop ℚ) (b : ℕ) (l : List ℕ) :
    pyMinBy key b l ∈ b :: l := by
  induction l generalizing b with
  | nil => simp [pyMinBy]
  | cons x xs ih =>
    simp only [pyMinBy]
    by_cases h : key x < key b
    · simp only [h, if_pos]
      have := ih x
      simp only [List.mem_cons] at this ⊢
      tauto
    · simp only [h, if_neg, not_false_iff]
      have := ih b
      simp only [List.mem_cons] at this ⊢
      tauto

/-- The greedy nearest-neighbour loop (lines 185-189): while unvisited
indices remain, pick the unvisited index with minimum
`travel_times.get((current, x), inf)` (first minimum wins), append it, and
advance.  `unvisited` is the ascending list of remaining indices. -/
def greedyLoop (tt : TTMatrix) (current : ℕ) (unvisited : List ℕ) : List ℕ :=
  match unvisited with
  | [] => []
  | u :: us =>
    let next := pyMinBy (fun x => ttGet tt (current, x)) u us
    next :: greedyLoop tt next ((u :: us).erase next)
termination_by unvisited.length
decreasing_by
  have hmem : next ∈ u :: us := pyMinBy_mem _ u us
  have := List.length_erase_of_mem hmem
  simp only [this, List.length_cons]
  omega

/-- The visiting order of indices produced by lines 179-189: start at index
0, then run the greedy loop over `unvisited = set(range(n)) - {0}`. -/
def optimizeIndices (tt : TTMatrix) (n : ℕ) : List ℕ :=
  0 :: greedyLoop tt 0 ((List.range n).erase 0)

/-- The travel-time matrix built by lines 152-177 for `n` valid places,
given the outcome of every external lookup: create the task list, gather
the per-task results, record them, then backfill the sentinels. -/
def buildTravelTimes (oracle : ℕ × ℕ → GatherResult) (n : ℕ) : TTMatrix :=
  backfill
    (fillLoop (allPairs n) ((issuedTaskPairs n).map (fun p => recordedValue (oracle p))) [])

/-- `_optimize_travel_path` (lines 140-192).  `oracle` gives the outcome of
the external lookup for each ordered index pair. -/
def optimizeTravelPath (oracle : ℕ × ℕ → GatherResult) (places : List Place) :
    List Place :=
  if places.length ≤ 1 then places
  else if (places.filter (fun p => hasCoords p)).length < 2 then
    places.filter (fun p => hasCoords p)
  else
    (optimizeIndices
        (buildTravelTimes oracle (places.filter (fun p => hasCoords p)).length)
        (places.filter (fun p => hasCoords p)).length).map
      (fun i => (places.filter (fun p => hasCoords p)).getD i default)

/-- How many lookup tasks `_optimize_travel_path` issues for a given input
(zero on either short-circuit, otherwise the length of the task list of
line 157). -/
def issuedTaskCount (places : List Place) : ℕ :=
  if places.length ≤ 1 then 0
  else if (places.filter (fun p => hasCoords p)).length < 2 then 0
  else (issuedTaskPairs (places.filter (fun p => hasCoords p)).length).length

/-- The places that actually enter the greedy ordering step (lines
179-189): the `valid_places` list, provided neither short-circuit of lines
142-150 fires. -/
def greedyParticipants (places : List Place) : List Place :=
  if places.length ≤ 1 then []
  else if (places.filter (fun p => hasCoords p)).length < 2 then []
  else places.filter (fun p => hasCoords p)

/-- Coordinate validity in the spec's words: both coordinates present, the
latitude (`mapy`) in `[-90, 90]` and the longitude (`mapx`) in
`[-180, 180]`.  Stated for comparison with the check the code performs. -/
def specValidCoords (p : Place) : Prop :=
  ∃ x y, p.mapx = some x ∧ p.mapy = some y ∧
    -90 ≤ y ∧ y ≤ 90 ∧ -180 ≤ x ∧ x ≤ 180

/-! ### Association-list lookup facts -/

theorem tlookup_eq_none_iff (tt : TTMatrix) (p : ℕ × ℕ) :
    tlookup tt p = none ↔ p ∉ tt.map Prod.fst := by
  induction tt with
  | nil => simp [tlookup]
  | cons kv rest ih =>
    simp only [tlookup, List.map_cons, List.mem_cons]
    by_cases h : kv.1 = p
    · simp [h]
    · rw [if_neg h, ih]
      constructor
      · intro hn hc
        rcases hc with hc | hc
        · exact h hc.symm
        · exact hn hc
      · intro hn hc
        exact hn (Or.inr hc)

theorem tlookup_isSome_iff (tt : TTMatrix) (p : ℕ × ℕ) :
    (tlookup tt p).isSome = true ↔ p ∈ tt.map Prod.fst := by
  rw [Option.isSome_iff_ne_none]
  constructor
  · intro h
    by_contra hm
    exact h ((tlookup_eq_none_iff tt p).mpr hm)
  · intro hm hn
    exact ((tlookup_eq_none_iff tt p).mp hn) hm

theorem tlookup_mem (tt : TTMatrix) (p : ℕ × ℕ) (v : ℚ)
    (h : tlookup tt p = some v) : (p, v) ∈ tt := by
  induction tt with
  | nil => simp [tlookup] at h
  | cons kv rest ih =>
    simp only [tlookup] at h
    by_cases hk : kv.1 = p
    · rw [if_pos hk] at h
      have hv : kv.2 = v := Option.some.inj h
      have hkv : kv = (p, v) := by
        obtain ⟨k, w⟩ := kv
        simp only at hk hv
        rw [hk, hv]
      rw [← hkv]
      exact List.mem_cons_self _ _
    · rw [if_neg hk] at h
      exact List.mem_cons_of_mem _ (ih h)

/-! ### The recording loop in closed form -/

theorem fillLoop_eq (L : List (ℕ × ℕ)) (res : List ℚ) (tt : TTMatrix) :
    fillLoop L res tt = tt ++ expectedFill (recKeys (tt.map Prod.fst) L) res := by
  induction L generalizing res tt with
  | nil => simp [fillLoop, recKeys, expectedFill]
  | cons p rest ih =>
    obtain ⟨i, j⟩ := p
    simp only [fillLoop, recKeys]
    by_cases h : i ≠ j ∧ (j, i) ∉ tt.map Prod.fst
    · have hl : tlookup tt (j, i) = none := (tlookup_eq_none_iff tt (j, i)).mpr h.2
      rw [if_pos ⟨h.1, hl⟩, if_pos h, ih]
      simp [expectedFill, List.append_assoc]
    · have hl : ¬(i ≠ j ∧ tlookup tt (j, i) = none) := by
        intro hx
        exact h ⟨hx.1, (tlookup_eq_none_iff tt (j, i)).mp hx.2⟩
      rw [if_neg hl, if_neg h, ih]

theorem recKeys_append (ks L₁ L₂ : List (ℕ × ℕ)) :
    recKeys ks (L₁ ++ L₂) =
      recKeys ks L₁ ++ recKeys (ks ++ recKeys ks L₁) L₂ := by
  induction L₁ generalizing ks with
  | nil => simp [recKeys]
  | cons p rest ih =>
    obtain ⟨i, j⟩ := p
    simp only [List.cons_append, recKeys, List.append_eq]
    by_cases hc : i ≠ j ∧ (j, i) ∉ ks
    · rw [if_pos hc, if_pos hc, ih]
      simp [List.append_assoc]
    · rw [if_neg hc, if_neg hc, ih]

theorem recKeys_row (i : ℕ) (js : List ℕ) (ks : List (ℕ × ℕ))
    (h : ∀ j, (j, i) ∈ ks ↔ j < i) :
    recKeys ks (js.map (fun j => (i, j))) =
      (js.filter (fun j => i < j)).map (fun j => (i, j)) := by
  induction js generalizing ks with
  | nil => simp [recKeys]
  | cons j js ih =>
    simp only [List.map_cons, recKeys, List.filter_cons]
    by_cases hij : i < j
    · have hc : i ≠ j ∧ (j, i) ∉ ks :=
        ⟨Nat.ne_of_lt hij, fun hm => absurd ((h j).mp hm) (by omega)⟩
      rw [if_pos hc]
      have h' : ∀ j', (j', i) ∈ ks ++ [(i, j)] ↔ j' < i := by
        intro j'
        simp only [List.mem_append, List.mem_singleton, Prod.mk.injEq]
        constructor
        · rintro (hm | ⟨h1, h2⟩)
          · exact (h j').mp hm
          · omega
        · intro hj'
          exact Or.inl ((h j').mpr hj')
      rw [ih _ h']
      simp [hij]
    · have hc : ¬(i ≠ j ∧ (j, i) ∉ ks) := by
        intro hx
        by_cases hji : j < i
        · exact hx.2 ((h j).mpr hji)
        · exact hx.1 (by omega)
      rw [if_neg hc, ih _ h]
      simp [hij]

theorem recKeys_rows (n : ℕ) :
    ∀ (k a : ℕ), a + k = n →
    ∀ ks : List (ℕ × ℕ),
      (∀ p : ℕ × ℕ, p ∈ ks ↔ p.1 < a ∧ p.1 < p.2 ∧ p.2 < n) →
      recKeys ks
        ((List.range' a k).flatMap (fun i => (List.range n).map (fun j => (i, j)))) =
      (List.range' a k).flatMap
        (fun i => ((List.range n).filter (fun j => i < j)).map (fun j => (i, j))) := by
  intro k
  induction k with
  | zero =>
    intro a ha ks hks
    simp [recKeys]
  | succ k ih =>
    intro a ha ks hks
    rw [List.range'_succ]
    simp only [List.flatMap_cons]
    rw [recKeys_append]
    have hrow : recKeys ks ((List.range n).map (fun j => (a, j))) =
        ((List.range n).filter (fun j => a < j)).map (fun j => (a, j)) := by
      apply recKeys_row
      intro j
      rw [hks (j, a)]
      constructor
      · rintro ⟨h1, _, _⟩
        exact h1
      · intro hj
        exact ⟨hj, by omega, by omega⟩
    rw [hrow]
    congr 1
    rw [ih (a + 1) (by omega)]
    intro p
    simp only [List.mem_append, List.mem_map, List.mem_filter, List.mem_range,
      hks p, decide_eq_true_eq]
    constructor
    · rintro (⟨h1, h2, h3⟩ | ⟨j, ⟨⟨hj1, hj2⟩, rfl⟩⟩)
      · exact ⟨by omega, h2, h3⟩
      · exact ⟨by omega, by simpa using hj2, by simpa using hj1⟩
    · rintro ⟨h1, h2, h3⟩
      by_cases ha1 : p.1 < a
      · exact Or.inl ⟨ha1, h2, h3⟩
      · right
        refine ⟨p.2, ⟨⟨h3, by omega⟩, ?_⟩⟩
        have : p.1 = a := by omega
        rw [← this]

theorem recKeys_allPairs (n : ℕ) : recKeys [] (allPairs n) = pairsLt n := by
  have h := recKeys_rows n n 0 (by omega) [] (by simp)
  rw [← List.range_eq_range'] at h
  rw [allPairs, pairsLt]
  exact h

theorem fillLoop_allPairs (n : ℕ) (res : List ℚ) :
    fillLoop (allPairs n) res [] = expectedFill (pairsLt n) res := by
  rw [fillLoop_eq]
  simp [recKeys_allPairs]

theorem expectedFill_keys (ps : List (ℕ × ℕ)) (res : List ℚ) :
    (expectedFill ps res).map Prod.fst = ps := by
  induction ps generalizing res with
  | nil => simp [expectedFill]
  | cons p ps ih => simp [expectedFill, ih]

theorem expectedFill_values (ps : List (ℕ × ℕ)) (res : List ℚ) :
    ∀ kv ∈ expectedFill ps res, kv.2 ∈ res ∨ kv.2 = sentinel := by
  induction ps generalizing res with
  | nil => simp [expectedFill]
  | cons p ps ih =>
    intro kv hkv
    simp only [expectedFill, List.mem_cons] at hkv
    rcases hkv with rfl | hkv
    · cases res with
      | nil => simp
      | cons a t => simp
    · rcases ih res.tail kv hkv with h | h
      · exact Or.inl (List.tail_subset res h)
      · exact Or.inr h

theorem mem_pairsLt (n i j : ℕ) : (i, j) ∈ pairsLt n ↔ i < j ∧ j < n := by
  simp only [pairsLt, List.mem_flatMap, List.mem_map, List.mem_filter,
    List.mem_range, decide_eq_true_eq, Prod.mk.injEq]
  constructor
  · rintro ⟨a, ha, b, ⟨hb, hab⟩, rfl, rfl⟩
    exact ⟨hab, hb⟩
  · rintro ⟨hij, hjn⟩
    exact ⟨i, by omega, j, ⟨hjn, hij⟩, rfl, rfl⟩

theorem filter_lt_range_length (n i : ℕ) :
    ((List.range n).filter (fun j => i < j)).length = n - (i + 1) := by
  induction n with
  | zero => simp
  | succ n ih =>
    rw [List.range_succ, List.filter_append, List.length_append, ih]
    by_cases h : i < n
    · have hfl : ([n] : List ℕ).filter (fun j => i < j) = [n] := by
        simp [List.filter_cons, h]
      rw [hfl]
      simp only [List.length_cons, List.length_nil]
      omega
    · have hfl : ([n] : List ℕ).filter (fun j => i < j) = [] := by
        simp [List.filter_cons, h]
      rw [hfl]
      simp only [List.length_nil]
      omega

theorem sum_map_add_one (l : List ℕ) (f : ℕ → ℕ) :
    (l.map (fun x => f x + 1)).sum = (l.map f).sum + l.length := by
  induction l with
  | nil => simp
  | cons a l ih =>
    simp only [List.map_cons, List.sum_cons, List.length_cons, ih]
    omega

theorem twice_sum_range (n : ℕ) :
    2 * ((List.range n).map (fun i => n - (i + 1))).sum = n * (n - 1) := by
  induction n with
  | zero => simp
  | succ n ih =>
    rw [List.range_succ, List.map_append, List.sum_append]
    have hmap : (List.range n).map (fun i => n + 1 - (i + 1)) =
        (List.range n).map (fun i => (n - (i + 1)) + 1) := by
      apply List.map_congr_left
      intro i hi
      rw [List.mem_range] at hi
      omega
    rw [hmap, sum_map_add_one, List.length_range]
    simp only [List.map_cons, List.map_nil, List.sum_cons, List.sum_nil]
    have hx : n + 1 - (n + 1) = 0 := by omega
    rw [hx]
    cases n with
    | zero => simp
    | succ m =>
      simp only [Nat.succ_sub_one] at ih ⊢
      have hexp : (m + 1 + 1) * (m + 1) = (m + 1) * m + 2 * (m + 1) := by ring
      rw [hexp]
      linarith [ih]

theorem pairsLt_length (n : ℕ) : (pairsLt n).length = n * (n - 1) / 2 := by
  have hlen : (pairsLt n).length =
      ((List.range n).map (fun i => n - (i + 1))).sum := by
    rw [pairsLt, List.length_flatMap]
    congr 1
    apply List.map_congr_left
    intro i _
    simp only [Function.comp_apply, List.length_map]
    exact filter_lt_range_length n i
  rw [hlen, ← twice_sum_range n]
  exact (Nat.mul_div_cancel_left _ (by norm_num)).symm

/-! ### Backfill facts -/

theorem backfill_keys (tt : TTMatrix) :
    (backfill tt).map Prod.fst = tt.map Prod.fst := by
  rw [backfill, List.map_map]
  apply List.map_congr_left
  intro kv _
  by_cases h : kv.2 = sentinel <;> simp [h]

theorem backfill_of_all_sentinel (tt : TTMatrix)
    (h : ∀ kv ∈ tt, kv.2 = sentinel) : backfill tt = tt := by
  have hmean : meanOf tt = sentinel := by
    have hf : (tt.map Prod.snd).filter (fun t => t ≠ sentinel) = [] := by
      rw [List.filter_eq_nil_iff]
      intro a ha
      rw [List.mem_map] at ha
      obtain ⟨kv, hkv, rfl⟩ := ha
      simp [h kv hkv]
    rw [meanOf, hf]
    simp
  rw [backfill]
  have hid : ∀ kv ∈ tt, (if kv.2 = sentinel then (kv.1, meanOf tt) else kv) = kv := by
    intro kv hkv
    rw [if_pos (h kv hkv), hmean, ← h kv hkv]
  calc tt.map (fun kv => if kv.2 = sentinel then (kv.1, meanOf tt) else kv)
      = tt.map id := List.map_congr_left hid
    _ = tt := List.map_id tt

/-! ### Facts about the built matrix -/

theorem fill_values_sentinel (n : ℕ) (res : List ℚ)
    (hres : ∀ v ∈ res, v = sentinel) :
    ∀ kv ∈ fillLoop (allPairs n) res [], kv.2 = sentinel := by
  rw [fillLoop_allPairs]
  intro kv hkv
  rcases expectedFill_values _ _ kv hkv with h | h
  · exact hres _ h
  · exact h

theorem tlookup_all_sentinel (tt : TTMatrix)
    (h : ∀ kv ∈ tt, kv.2 = sentinel) (p : ℕ × ℕ)
    (hs : (tlookup tt p).isSome = true) : tlookup tt p = some sentinel := by
  obtain ⟨v, hv⟩ := Option.isSome_iff_exists.mp hs
  have hvs := h (p, v) (tlookup_mem tt p v hv)
  simp only at hvs
  rw [hv, hvs]

theorem build_keys (oracle : ℕ × ℕ → GatherResult) (n : ℕ) :
    (buildTravelTimes oracle n).map Prod.fst = pairsLt n := by
  rw [buildTravelTimes, backfill_keys, fillLoop_allPairs, expectedFill_keys]

theorem build_isSome_iff (oracle : ℕ × ℕ → GatherResult) (n i j : ℕ) :
    (tlookup (buildTravelTimes oracle n) (i, j)).isSome = true ↔ i < j ∧ j < n := by
  rw [tlookup_isSome_iff, build_keys, mem_pairsLt]

theorem ttGet_build_top (oracle : ℕ × ℕ → GatherResult) (n i j : ℕ)
    (h : j ≤ i) : ttGet (buildTravelTimes oracle n) (i, j) = ⊤ := by
  have hnone : tlookup (buildTravelTimes oracle n) (i, j) = none := by
    rw [tlookup_eq_none_iff, build_keys, mem_pairsLt]
    omega
  rw [ttGet, hnone]

/-! ### Greedy-loop facts -/

theorem pyMinBy_const (key : ℕ → WithTop ℚ) (b : ℕ) (l : List ℕ)
    (h : ∀ x ∈ l, key x = key b) : pyMinBy key b l = b := by
  induction l with
  | nil => rfl
  | cons x xs ih =>
    simp only [pyMinBy]
    rw [h x (List.mem_cons_self x xs), if_neg (lt_irrefl _)]
    exact ih (fun y hy => h y (List.mem_cons_of_mem _ hy))

theorem greedyLoop_perm_aux (tt : TTMatrix) :
    ∀ (k : ℕ) (l : List ℕ), l.length ≤ k → ∀ c, (greedyLoop tt c l).Perm l := by
  intro k
  induction k with
  | zero =>
    intro l hl c
    have hnil : l = [] := List.length_eq_zero.mp (by omega)
    subst hnil
    simp [greedyLoop]
  | succ k ih =>
    intro l hl c
    cases l with
    | nil => simp [greedyLoop]
    | cons u us =>
      simp only [greedyLoop]
      set next := pyMinBy (fun x => ttGet tt (c, x)) u us with hnext
      have hmem : next ∈ u :: us := by
        rw [hnext]
        exact pyMinBy_mem _ u us
      have hlen : ((u :: us).erase next).length ≤ k := by
        rw [List.length_erase_of_mem hmem]
        simp only [List.length_cons] at hl ⊢
        omega
      exact ((ih _ hlen next).cons next).trans (List.perm_cons_erase hmem).symm

theorem greedyLoop_perm (tt : TTMatrix) (c : ℕ) (l : List ℕ) :
    (greedyLoop tt c l).Perm l :=
  greedyLoop_perm_aux tt l.length l le_rfl c

theorem optimizeIndices_perm (tt : TTMatrix) (n : ℕ) (hn : 1 ≤ n) :
    (optimizeIndices tt n).Perm (List.range n) := by
  rw [optimizeIndices]
  have h0 : 0 ∈ List.range n := List.mem_range.mpr (by omega)
  exact ((greedyLoop_perm tt 0 _).cons 0).trans (List.perm_cons_erase h0).symm

theorem map_getD_range (l : List Place) (d : Place) :
    (List.range l.length).map (fun i => l.getD i d) = l := by
  apply List.ext_getElem
  · simp
  · intro i h1 h2
    simp only [List.getElem_map, List.getElem_range]
    rw [List.getD_eq_getElem l d h2]

theorem list_sum_lt (l : List ℚ) (c : ℚ) (hne : l ≠ []) (h : ∀ x ∈ l, x < c) :
    l.sum < l.length * c := by
  induction l with
  | nil => exact absurd rfl hne
  | cons a t ih =>
    cases t with
    | nil =>
      simpa using h a (by simp)
    | cons b t' =>
      have ha := h a (List.mem_cons_self _ _)
      have ht := ih (by simp) (fun x hx => h x (List.mem_cons_of_mem _ hx))
      simp only [List.sum_cons, List.length_cons] at ht ⊢
      have hexp : ((t'.length + 1 + 1 : ℕ) : ℚ) * c = ((t'.length + 1 : ℕ) : ℚ) * c + c := by
        push_cast
        ring
      rw [hexp]
      linarith

theorem meanOf_lt_sentinel (tt : TTMatrix)
    (hex : ∃ kv ∈ tt, kv.2 ≠ sentinel)
    (hbound : ∀ kv ∈ tt, kv.2 ≠ sentinel → kv.2 < sentinel) :
    meanOf tt < sentinel := by
  rw [meanOf]
  set l := (tt.map Prod.snd).filter (fun t => t ≠ sentinel) with hl
  have hne : l ≠ [] := by
    obtain ⟨kv, hkv, hv⟩ := hex
    intro hnil
    have hmem : kv.2 ∈ l := by
      rw [hl, List.mem_filter]
      exact ⟨List.mem_map_of_mem _ hkv, by simpa using hv⟩
    rw [hnil] at hmem
    simp at hmem
  have hlt : ∀ x ∈ l, x < sentinel := by
    intro x hx
    rw [hl, List.mem_filter] at hx
    obtain ⟨hx1, hx2⟩ := hx
    rw [List.mem_map] at hx1
    obtain ⟨kv, hkv, rfl⟩ := hx1
    exact hbound kv hkv (by simpa using hx2)
  rw [if_neg (by simp [hne])]
  have hlen : 1 ≤ l.length := by
    have := List.length_pos.mpr hne
    omega
  rw [Nat.max_eq_right hlen]
  have hpos : (0 : ℚ) < (l.length : ℚ) := by
    exact_mod_cast Nat.pos_of_ne_zero (by omega)
  rw [div_lt_iff₀ hpos]
  have hsum := list_sum_lt l sentinel hne hlt
  linarith

theorem recordedValue_failed (r : GatherResult) (h : r.failed = true) :
    recordedValue r = sentinel := by
  cases r with
  | value o =>
    cases o with
    | success v => simp [GatherResult.failed] at h
    | noData => rfl
    | timeout => rfl
    | error => rfl
  | exn => rfl

theorem build_all_sentinel (oracle : ℕ × ℕ → GatherResult) (n : ℕ)
    (hfail : ∀ q, (oracle q).failed = true) :
    ∀ kv ∈ buildTravelTimes oracle n, kv.2 = sentinel := by
  have hres : ∀ v ∈ (issuedTaskPairs n).map (fun p => recordedValue (oracle p)),
      v = sentinel := by
    intro v hv
    rw [List.mem_map] at hv
    obtain ⟨p, _, rfl⟩ := hv
    exact recordedValue_failed _ (hfail p)
  have hfill := fill_values_sentinel n _ hres
  rw [buildTravelTimes, backfill_of_all_sentinel _ hfill]
  exact hfill

theorem greedyLoop_range' (tt : TTMatrix) (n : ℕ)
    (hval : ∀ i j, i < j → j < n → tlookup tt (i, j) = some sentinel) :
    ∀ (m c : ℕ), c + 1 + m = n →
      greedyLoop tt c (List.range' (c + 1) m) = List.range' (c + 1) m := by
  intro m
  induction m with
  | zero =>
    intro c hc
    simp [greedyLoop]
  | succ m ih =>
    intro c hc
    rw [List.range'_succ]
    have hkey : ∀ x, c + 1 ≤ x → x < c + 1 + (m + 1) →
        ttGet tt (c, x) = ((sentinel : ℚ) : WithTop ℚ) := by
      intro x h1 h2
      rw [ttGet, hval c x (by omega) (by omega)]
    have hmin : pyMinBy (fun x => ttGet tt (c, x)) (c + 1) (List.range' (c + 2) m) = c + 1 := by
      apply pyMinBy_const
      intro x hx
      rw [List.mem_range'_1] at hx
      rw [hkey x (by omega) (by omega), hkey (c + 1) (by omega) (by omega)]
    simp only [greedyLoop]
    rw [hmin, List.erase_cons_head]
    rw [ih (c + 1) (by omega)]

theorem optimizeIndices_all_sentinel (tt : TTMatrix) (n : ℕ) (hn : 1 ≤ n)
    (hval : ∀ i j, i < j → j < n → tlookup tt (i, j) = some sentinel) :
    optimizeIndices tt n = List.range n := by
  have hsplit : List.range n = 0 :: List.range' 1 (n - 1) := by
    rw [List.range_eq_range']
    cases n with
    | zero => omega
    | succ m =>
      rw [List.range'_succ]
      simp
  rw [optimizeIndices, hsplit, List.erase_cons_head,
    greedyLoop_range' tt n hval (n - 1) 0 (by omega)]

/-! ### Branch reductions of the optimizer -/

theorem optimizeTravelPath_matrix_case (oracle : ℕ × ℕ → GatherResult)
    (places : List Place)
    (h2 : 2 ≤ (places.filter (fun p => hasCoords p)).length) :
    optimizeTravelPath oracle places =
      (optimizeIndices
          (buildTravelTimes oracle (places.filter (fun p => hasCoords p)).length)
          (places.filter (fun p => hasCoords p)).length).map
        (fun i => (places.filter (fun p => hasCoords p)).getD i default) := by
  have hlen : ¬ places.length ≤ 1 := by
    have := List.length_filter_le (fun p => hasCoords p) places
    omega
  rw [optimizeTravelPath, if_neg hlen, if_neg (by omega)]

theorem optimizeTravelPath_perm_filter (oracle : ℕ × ℕ → GatherResult)
    (places : List Place)
    (h2 : 2 ≤ (places.filter (fun p => hasCoords p)).length) :
    (optimizeTravelPath oracle places).Perm
      (places.filter (fun p => hasCoords p)) := by
  rw [optimizeTravelPath_matrix_case oracle places h2]
  have hperm := optimizeIndices_perm
    (buildTravelTimes oracle (places.filter (fun p => hasCoords p)).length)
    (places.filter (fun p => hasCoords p)).length (by omega)
  refine (hperm.map _).trans ?_
  rw [map_getD_range]

theorem optimizeTravelPath_head (oracle : ℕ × ℕ → GatherResult)
    (places : List Place)
    (h2 : 2 ≤ (places.filter (fun p => hasCoords p)).length) :
    (optimizeTravelPath oracle places).head? =
      (places.filter (fun p => hasCoords p)).head? := by
  rw [optimizeTravelPath_matrix_case oracle places h2, optimizeIndices]
  simp only [List.map_cons, List.head?_cons]
  cases hv : places.filter (fun p => hasCoords p) with
  | nil =>
    rw [hv] at h2
    simp at h2
  | cons v vs =>
    simp

/-! ## Claims -/

/-- C1: for every input list of N ≥ 2 places all having valid coordinates,
with every pairwise lookup succeeding, `_optimize_travel_path` returns a
permutation of the input: same length, same first place, and every input
place exactly once. -/
theorem C1_hamiltonian_route (oracle : ℕ × ℕ → GatherResult)
    (places : List Place) (h2 : 2 ≤ places.length)
    (hvalid : ∀ p ∈ places, hasCoords p = true)
    (hsucc : ∀ q : ℕ × ℕ, ∃ v,
      oracle q = GatherResult.value (CallOutcome.success v)) :
    (optimizeTravelPath oracle places).Perm places ∧
    (optimizeTravelPath oracle places).length = places.length ∧
    (optimizeTravelPath oracle places).head? = places.head? := by
  have hfilter : places.filter (fun p => hasCoords p) = places :=
    List.filter_eq_self.mpr hvalid
  have h2' : 2 ≤ (places.filter (fun p => hasCoords p)).length := by
    rw [hfilter]
    exact h2
  have hperm := optimizeTravelPath_perm_filter oracle places h2'
  have hh := optimizeTravelPath_head oracle places h2'
  rw [hfilter] at hperm hh
  exact ⟨hperm, hperm.length_eq, hh⟩

/-- Witness for C1 at two concrete places with an all-success oracle. -/
theorem C1_hamiltonian_route_witness :
    (optimizeTravelPath (fun _ => GatherResult.value (CallOutcome.success 7))
        [⟨"A", some 1, some 2⟩, ⟨"B", some 3, some 4⟩]).Perm
      [⟨"A", some 1, some 2⟩, ⟨"B", some 3, some 4⟩] ∧
    (optimizeTravelPath (fun _ => GatherResult.value (CallOutcome.success 7))
        [⟨"A", some 1, some 2⟩, ⟨"B", some 3, some 4⟩]).length =
      ([⟨"A", some 1, some 2⟩, ⟨"B", some 3, some 4⟩] : List Place).length ∧
    (optimizeTravelPath (fun _ => GatherResult.value (CallOutcome.success 7))
        [⟨"A", some 1, some 2⟩, ⟨"B", some 3, some 4⟩]).head? =
      ([⟨"A", some 1, some 2⟩, ⟨"B", some 3, some 4⟩] : List Place).head? :=
  C1_hamiltonian_route _ _ (by norm_num) (by decide) (fun q => ⟨7, rfl⟩)

/-- C2 is falsified by the code: the dedupe guard of the task loop tests an
empty dict, so one task is issued per ordered pair (2 for N = 2, 6 for
N = 3, not N(N−1)/2), and for N = 3 the entry recorded for the unordered
pair {1, 2} is the result of the lookup issued for the ordered pair (1, 0)
(value 3 below), not the result of the {1, 2} lookup (value 4). -/
theorem C2_task_mismatch :
    (issuedTaskPairs 2).length = 2 ∧
    (issuedTaskPairs 3).length = 6 ∧
    issuedTaskPairs 3 = [(0, 1), (0, 2), (1, 0), (1, 2), (2, 0), (2, 1)] ∧
    tlookup
      (fillLoop (allPairs 3)
        ((issuedTaskPairs 3).map (fun p => recordedValue
          ((fun q => match q with
            | (0, 1) => GatherResult.value (CallOutcome.success 1)
            | (0, 2) => GatherResult.value (CallOutcome.success 2)
            | (1, 0) => GatherResult.value (CallOutcome.success 3)
            | (1, 2) => GatherResult.value (CallOutcome.success 4)
            | (2, 0) => GatherResult.value (CallOutcome.success 5)
            | (2, 1) => GatherResult.value (CallOutcome.success 6)
            | _ => GatherResult.value (CallOutcome.success 0)) p))) [])
      (1, 2) = some 3 ∧
    recordedValue
      ((fun q => match q with
        | (0, 1) => GatherResult.value (CallOutcome.success 1)
        | (0, 2) => GatherResult.value (CallOutcome.success 2)
        | (1, 0) => GatherResult.value (CallOutcome.success 3)
        | (1, 2) => GatherResult.value (CallOutcome.success 4)
        | (2, 0) => GatherResult.value (CallOutcome.success 5)
        | (2, 1) => GatherResult.value (CallOutcome.success 6)
        | _ => GatherResult.value (CallOutcome.success 0)) (1, 2)) = 4 :=
  ⟨rfl, rfl, rfl, rfl, rfl⟩

/-- C3 fails on the code: with two places and every lookup succeeding with
10, the single stored entry for the unordered pair {0, 1} sits at key
(0, 1) with value 10, but the value the greedy step consults for
current = 1, candidate = 0 is +∞, not that stored entry. -/
theorem C3_counterexample :
    tlookup (buildTravelTimes
      (fun _ => GatherResult.value (CallOutcome.success 10)) 2) (0, 1) = some 10 ∧
    ttGet (buildTravelTimes
      (fun _ => GatherResult.value (CallOutcome.success 10)) 2) (1, 0) = ⊤ :=
  ⟨rfl, rfl⟩

/-- C3 amended: the greedy selection consults the stored unordered-pair
entry only in the direction current < candidate; for current ≥ candidate
the dictionary lookup misses and evaluates to +∞ (the symmetric value is
not reused). -/
theorem C3_direction_asymmetry (oracle : ℕ × ℕ → GatherResult) (n i j : ℕ) :
    (j ≤ i → ttGet (buildTravelTimes oracle n) (i, j) = ⊤) ∧
    (i < j → j < n →
      (tlookup (buildTravelTimes oracle n) (i, j)).isSome = true) := by
  constructor
  · exact ttGet_build_top oracle n i j
  · intro h1 h2
    exact (build_isSome_iff oracle n i j).mpr ⟨h1, h2⟩

/-- Witness for the amended C3 at n = 3. -/
theorem C3_direction_asymmetry_witness :
    ttGet (buildTravelTimes (fun _ => GatherResult.exn) 3) (2, 1) = ⊤ ∧
    (tlookup (buildTravelTimes (fun _ => GatherResult.exn) 3) (1, 2)).isSome
      = true :=
  ⟨(C3_direction_asymmetry (fun _ => GatherResult.exn) 3 2 1).1 (by norm_num),
   (C3_direction_asymmetry (fun _ => GatherResult.exn) 3 1 2).2 (by norm_num)
     (by norm_num)⟩

/-- C4 fails as stated: with N = 2, the lookup for the ordered pair (1, 0)
is issued and succeeds with 10, yet its result is never recorded (only the
first half of the gathered results is consumed), so after the backfill the
sole matrix entry still holds the sentinel. -/
theorem C4_counterexample :
    ((1, 0) ∈ issuedTaskPairs 2) ∧
    ((fun q => if q = ((0 : ℕ), (1 : ℕ)) then GatherResult.value CallOutcome.timeout
        else GatherResult.value (CallOutcome.success 10)) (1, 0)
      = GatherResult.value (CallOutcome.success 10)) ∧
    ∃ kv ∈ buildTravelTimes
        (fun q => if q = ((0 : ℕ), (1 : ℕ)) then GatherResult.value CallOutcome.timeout
          else GatherResult.value (CallOutcome.success 10)) 2,
      kv.2 = sentinel := by
  refine ⟨by decide, rfl, ⟨((0, 1), sentinel), by decide, rfl⟩⟩

/-- C4 amended: after the matrix build, if every recorded value is the
sentinel the backfill leaves every entry at the sentinel; if some recorded
entry is non-sentinel, every sentinel entry is replaced by the mean of the
non-sentinel entries, and—provided the non-sentinel values are below the
sentinel—no entry of the final matrix equals the sentinel. -/
theorem C4_backfill_mean (tt : TTMatrix) :
    ((∀ kv ∈ tt, kv.2 = sentinel) → backfill tt = tt) ∧
    ((∃ kv ∈ tt, kv.2 ≠ sentinel) →
      (∀ kv ∈ tt, kv.2 = sentinel → (kv.1, meanOf tt) ∈ backfill tt) ∧
      ((∀ kv ∈ tt, kv.2 ≠ sentinel → kv.2 < sentinel) →
        ∀ kv ∈ backfill tt, kv.2 ≠ sentinel)) := by
  constructor
  · exact backfill_of_all_sentinel tt
  · intro hex
    constructor
    · intro kv hkv hs
      rw [backfill]
      exact List.mem_map.mpr ⟨kv, hkv, by rw [if_pos hs]⟩
    · intro hbound kv' hkv'
      rw [backfill, List.mem_map] at hkv'
      obtain ⟨kv, hkv, hf⟩ := hkv'
      by_cases hs : kv.2 = sentinel
      · rw [if_pos hs] at hf
        rw [← hf]
        exact ne_of_lt (meanOf_lt_sentinel tt hex hbound)
      · rw [if_neg hs] at hf
        rw [← hf]
        exact hs

/-- Witness for the amended C4 on a two-entry matrix with one failure. -/
theorem C4_backfill_mean_witness :
    (((0, 1), meanOf [((0, 1), sentinel), ((0, 2), 5)]) ∈
      backfill [((0, 1), sentinel), ((0, 2), 5)]) ∧
    ∀ kv ∈ backfill [((0, 1), sentinel), ((0, 2), 5)], kv.2 ≠ sentinel := by
  refine ⟨?_, ?_⟩
  · exact ((C4_backfill_mean [((0, 1), sentinel), ((0, 2), 5)]).2
      (by decide)).1 ((0, 1), sentinel) (by decide) rfl
  · exact ((C4_backfill_mean [((0, 1), sentinel), ((0, 2), 5)]).2
      (by decide)).2 (by decide)

/-- C5 fails as stated for N ≥ 3: below, the only failing lookup is the
one for the ordered pair (1, 0), yet after the recording loop the entry of
its unordered pair {0, 1} holds 7 (the (0, 1) lookup's result) and the
sentinel lands on the pair {1, 2}, whose own lookup succeeded. -/
theorem C5_counterexample :
    ((fun q => if q = ((1 : ℕ), (0 : ℕ)) then GatherResult.value CallOutcome.timeout
        else GatherResult.value (CallOutcome.success 7)) (1, 0)).failed = true ∧
    tlookup
      (fillLoop (allPairs 3)
        ((issuedTaskPairs 3).map (fun p => recordedValue
          ((fun q => if q = ((1 : ℕ), (0 : ℕ)) then GatherResult.value CallOutcome.timeout
            else GatherResult.value (CallOutcome.success 7)) p))) [])
      (0, 1) = some 7 ∧
    tlookup
      (fillLoop (allPairs 3)
        ((issuedTaskPairs 3).map (fun p => recordedValue
          ((fun q => if q = ((1 : ℕ), (0 : ℕ)) then GatherResult.value CallOutcome.timeout
            else GatherResult.value (CallOutcome.success 7)) p))) [])
      (1, 2) = some sentinel :=
  ⟨rfl, rfl, rfl⟩

/-- C5 amended: the per-call timeout is 5; a `None` answer, a timeout or a
provider error makes the lookup evaluate to the sentinel 99999, as does an
exception object delivered by the gather; and no failure ever aborts the
optimization or reaches the caller — the optimizer always returns a route
drawn from its input. -/
theorem C5_failure_handling :
    lookupTimeoutSeconds = 5 ∧
    (∀ o : CallOutcome, (∀ v, o ≠ CallOutcome.success v) →
      getTravelTimeWithTimeout o = sentinel) ∧
    (∀ r : GatherResult, r.failed = true → recordedValue r = sentinel) ∧
    (∀ (oracle : ℕ × ℕ → GatherResult) (places : List Place),
      ∀ x ∈ optimizeTravelPath oracle places, x ∈ places) := by
  refine ⟨rfl, ?_, recordedValue_failed, ?_⟩
  · intro o ho
    cases o with
    | success v => exact absurd rfl (ho v)
    | noData => rfl
    | timeout => rfl
    | error => rfl
  · intro oracle places x hx
    by_cases h1 : places.length ≤ 1
    · rw [optimizeTravelPath, if_pos h1] at hx
      exact hx
    · by_cases hlt : (places.filter (fun p => hasCoords p)).length < 2
      · rw [optimizeTravelPath, if_neg h1, if_pos hlt] at hx
        exact List.mem_of_mem_filter hx
      · rw [optimizeTravelPath_matrix_case oracle places (by omega)] at hx
        rw [List.mem_map] at hx
        obtain ⟨i, hi, rfl⟩ := hx
        have hperm := optimizeIndices_perm
          (buildTravelTimes oracle (places.filter (fun p => hasCoords p)).length)
          (places.filter (fun p => hasCoords p)).length (by omega)
        have hir := hperm.mem_iff.mp hi
        rw [List.mem_range] at hir
        have hmem : (places.filter (fun p => hasCoords p)).getD i default ∈
            places.filter (fun p => hasCoords p) := by
          rw [List.getD_eq_getElem _ _ hir]
          exact List.getElem_mem hir
        exact List.mem_of_mem_filter hmem

/-- Witness for the amended C5: a timeout and a gather exception both
record the sentinel, and a route element always comes from the input. -/
theorem C5_failure_handling_witness :
    getTravelTimeWithTimeout CallOutcome.timeout = sentinel ∧
    recordedValue GatherResult.exn = sentinel ∧
    (⟨"A", none, none⟩ : Place) ∈ ([⟨"A", none, none⟩] : List Place) :=
  ⟨C5_failure_handling.2.1 CallOutcome.timeout (fun v h => CallOutcome.noConfusion h),
   C5_failure_handling.2.2.1 GatherResult.exn rfl,
   C5_failure_handling.2.2.2 (fun _ => GatherResult.exn) [⟨"A", none, none⟩]
     ⟨"A", none, none⟩ (by decide)⟩

/-- C6: if every pairwise lookup fails, every matrix entry holds the
sentinel and the returned route equals the filtered input order. -/
theorem C6_all_fail_input_order (oracle : ℕ × ℕ → GatherResult)
    (places : List Place)
    (hfail : ∀ q, (oracle q).failed = true)
    (h2 : 2 ≤ (places.filter (fun p => hasCoords p)).length) :
    (∀ kv ∈ buildTravelTimes oracle
        (places.filter (fun p => hasCoords p)).length, kv.2 = sentinel) ∧
    optimizeTravelPath oracle places = places.filter (fun p => hasCoords p) := by
  have hsent := build_all_sentinel oracle
    (places.filter (fun p => hasCoords p)).length hfail
  refine ⟨hsent, ?_⟩
  rw [optimizeTravelPath_matrix_case oracle places h2]
  have hval : ∀ i j, i < j → j < (places.filter (fun p => hasCoords p)).length →
      tlookup (buildTravelTimes oracle
        (places.filter (fun p => hasCoords p)).length) (i, j) = some sentinel := by
    intro i j h1 hjn
    exact tlookup_all_sentinel _ hsent (i, j)
      ((build_isSome_iff oracle _ i j).mpr ⟨h1, hjn⟩)
  rw [optimizeIndices_all_sentinel _ _ (by omega) hval]
  exact map_getD_range _ default

/-- Witness for C6 at two concrete places with an all-exception oracle. -/
theorem C6_all_fail_witness :
    (∀ kv ∈ buildTravelTimes (fun _ => GatherResult.exn)
        (([⟨"A", some 1, some 2⟩, ⟨"B", some 3, some 4⟩] : List Place).filter
          (fun p => hasCoords p)).length, kv.2 = sentinel) ∧
    optimizeTravelPath (fun _ => GatherResult.exn)
        [⟨"A", some 1, some 2⟩, ⟨"B", some 3, some 4⟩] =
      ([⟨"A", some 1, some 2⟩, ⟨"B", some 3, some 4⟩] : List Place).filter
        (fun p => hasCoords p) :=
  C6_all_fail_input_order _ _ (fun q => rfl) (by decide)

/-- C7 fails as stated: a single place without coordinates falls into the
`len(places) <= 1` branch and is returned unchanged, although the subset
of places with valid coordinates is empty. -/
theorem C7_counterexample :
    optimizeTravelPath (fun _ => GatherResult.exn) [⟨"A", none, none⟩] =
      [⟨"A", none, none⟩] ∧
    ([(⟨"A", none, none⟩ : Place)].filter (fun p => hasCoords p)) = [] ∧
    optimizeTravelPath (fun _ => GatherResult.exn) [⟨"A", none, none⟩] ≠
      ([(⟨"A", none, none⟩ : Place)].filter (fun p => hasCoords p)) :=
  ⟨rfl, rfl, by decide⟩

/-- C7 amended: for input lists of length ≥ 2 in which fewer than 2 places
pass the coordinate check, the optimizer returns exactly the valid subset
in input order and issues no travel-time lookup (length ≤ 1 inputs are
returned unchanged, unfiltered, by C8). -/
theorem C7_insufficient_valid (oracle : ℕ × ℕ → GatherResult)
    (places : List Place) (hlen : 2 ≤ places.length)
    (hlt : (places.filter (fun p => hasCoords p)).length < 2) :
    optimizeTravelPath oracle places = places.filter (fun p => hasCoords p) ∧
    issuedTaskCount places = 0 := by
  have h1 : ¬ places.length ≤ 1 := by omega
  refine ⟨?_, ?_⟩
  · rw [optimizeTravelPath, if_neg h1, if_pos hlt]
  · rw [issuedTaskCount, if_neg h1, if_pos hlt]

/-- Witness for the amended C7: two places, only one with coordinates. -/
theorem C7_insufficient_valid_witness :
    optimizeTravelPath (fun _ => GatherResult.exn)
        [⟨"A", none, none⟩, ⟨"B", some 1, some 2⟩] =
      ([⟨"A", none, none⟩, ⟨"B", some 1, some 2⟩] : List Place).filter
        (fun p => hasCoords p) ∧
    issuedTaskCount [⟨"A", none, none⟩, ⟨"B", some 1, some 2⟩] = 0 :=
  C7_insufficient_valid _ _ (by norm_num) (by decide)

/-- C8: an input of length ≤ 1 is returned unchanged and no travel-time
lookup is issued. -/
theorem C8_short_input (oracle : ℕ × ℕ → GatherResult) (places : List Place)
    (h : places.length ≤ 1) :
    optimizeTravelPath oracle places = places ∧ issuedTaskCount places = 0 := by
  refine ⟨?_, ?_⟩
  · rw [optimizeTravelPath, if_pos h]
  · rw [issuedTaskCount, if_pos h]

/-- Witness for C8 on a single place. -/
theorem C8_short_input_witness :
    optimizeTravelPath (fun _ => GatherResult.exn) [⟨"A", some 1, some 2⟩] =
      [⟨"A", some 1, some 2⟩] ∧
    issuedTaskCount [⟨"A", some 1, some 2⟩] = 0 :=
  C8_short_input _ _ (by norm_num)

/-- C9 fails as stated: a place with longitude 1000 and latitude 95 (both
far outside the valid ranges) passes the code's truthiness check and
enters the greedy ordering step. -/
theorem C9_counterexample :
    (⟨"B", some 1000, some 95⟩ : Place) ∈
      greedyParticipants [⟨"A", some 1, some 2⟩, ⟨"B", some 1000, some 95⟩] ∧
    ¬ specValidCoords ⟨"B", some 1000, some 95⟩ := by
  constructor
  · decide
  · rintro ⟨x, y, hx, hy, hy1, hy2, hx1, hx2⟩
    have hxv : (1000 : ℚ) = x := Option.some.inj hx
    rw [← hxv] at hx2
    norm_num at hx2

/-- C9 amended: every place entering the greedy ordering step satisfies
the code's check — `mapx` and `mapy` present and truthy — and comes from
the input; no range or finiteness validation is performed. -/
theorem C9_truthiness_check (places : List Place) (p : Place)
    (h : p ∈ greedyParticipants places) :
    hasCoords p = true ∧ p ∈ places := by
  rw [greedyParticipants] at h
  by_cases h1 : places.length ≤ 1
  · rw [if_pos h1] at h
    simp at h
  · rw [if_neg h1] at h
    by_cases h2 : (places.filter (fun p => hasCoords p)).length < 2
    · rw [if_pos h2] at h
      simp at h
    · rw [if_neg h2] at h
      exact ⟨List.of_mem_filter h, List.mem_of_mem_filter h⟩

/-- Witness for the amended C9. -/
theorem C9_truthiness_check_witness :
    hasCoords (⟨"B", some 3, some 4⟩ : Place) = true ∧
    (⟨"B", some 3, some 4⟩ : Place) ∈
      ([⟨"A", some 1, some 2⟩, ⟨"B", some 3, some 4⟩] : List Place) :=
  C9_truthiness_check [⟨"A", some 1, some 2⟩, ⟨"B", some 3, some 4⟩]
    ⟨"B", some 3, some 4⟩ (by decide)

/-- C10: after the fill loop for N valid places the dictionary holds
exactly the keys (i, j) with i < j < N — N(N−1)/2 entries — and any greedy
lookup whose current index exceeds the candidate index misses the
dictionary and evaluates to +∞. -/
theorem C10_matrix_shape (n : ℕ) (oracle : ℕ × ℕ → GatherResult) (i j : ℕ) :
    ((tlookup
        (fillLoop (allPairs n)
          ((issuedTaskPairs n).map (fun p => recordedValue (oracle p))) [])
        (i, j)).isSome = true ↔ i < j ∧ j < n) ∧
    (fillLoop (allPairs n)
        ((issuedTaskPairs n).map (fun p => recordedValue (oracle p))) []).length
      = n * (n - 1) / 2 ∧
    (j < i → ttGet (buildTravelTimes oracle n) (i, j) = ⊤) := by
  refine ⟨?_, ?_, ?_⟩
  · rw [tlookup_isSome_iff, fillLoop_allPairs, expectedFill_keys, mem_pairsLt]
  · rw [fillLoop_allPairs]
    have hkeys := expectedFill_keys (pairsLt n)
      ((issuedTaskPairs n).map (fun p => recordedValue (oracle p)))
    have hlen := congrArg List.length hkeys
    rw [List.length_map] at hlen
    rw [hlen, pairsLt_length]
  · intro h
    exact ttGet_build_top oracle n i j (by omega)

/-- Witness for C10 at n = 3. -/
theorem C10_matrix_shape_witness :
    (tlookup
      (fillLoop (allPairs 3)
        ((issuedTaskPairs 3).map (fun p => recordedValue
          ((fun _ => GatherResult.exn) p))) []) (1, 2)).isSome = true ∧
    ttGet (buildTravelTimes (fun _ => GatherResult.exn) 3) (2, 1) = ⊤ :=
  ⟨(C10_matrix_shape 3 (fun _ => GatherResult.exn) 1 2).1.mpr (by norm_num),
   (C10_matrix_shape 3 (fun _ => GatherResult.exn) 2 1).2.2 (by norm_num)⟩

end NaviGo
